import Mathlib

/-!
Shallow embedding of `src/app/list_store.rs`: a typed wrapper (`ListStore<GType>`)
over the untyped observable collection `gio::ListStore`, together with its
diff-based update protocol and its strong/weak reference duality.

Modelling conventions:
* A `glib::Object` is modelled as a runtime type tag plus a payload value
  (`GObject`).  An element of the Rust type parameter `GType` is modelled as a
  payload value (`Nat`) together with the type's tag (`Nat`); `upcast` attaches
  the tag, `downcast` checks it.
* The native `gio::ListStore` is modelled as a `List GObject`.  Its operations
  (`n_items`, `item`, `splice`, `insert`, `remove`) follow the documented GIO
  semantics: out-of-range positions make `item` return `none`, and make the
  mutators leave the store unchanged (GLib `g_return_if_fail`).
* `u32` indices are modelled as `Nat` with explicit wrap-around `% 2^32` where
  the Rust code performs `u32` arithmetic (`index - 1`, `index + 1`,
  `i as u32`).  A `gio::ListStore` can never hold more than `2^32 - 1` items
  because `n_items` returns `u32`.
* Rust panics (`Option::unwrap` on `None`) are modelled as `none` results:
  a function returning `Option σ` yields `none` exactly when the Rust code
  panics, and `some` of the resulting state otherwise.
-/

set_option autoImplicit false

namespace SpotListStore

/-- The `u32` modulus `2^32`. -/
def u32Mod : Nat := 4294967296

/-- Wrapping `u32` subtraction of 1, the release-mode meaning of `index - 1`. -/
def u32SubOne (i : Nat) : Nat := (i + (u32Mod - 1)) % u32Mod

/-- Wrapping `u32` addition of 1, the release-mode meaning of `index + 1`. -/
def u32AddOne (i : Nat) : Nat := (i + 1) % u32Mod

/-- Model of `glib::Object`: a runtime type tag plus a payload value. -/
structure GObject where
  tag : Nat
  val : Nat
deriving DecidableEq, Repr

/-- `e.upcast::<glib::Object>()`: attach the runtime tag `t` of the static
type to the payload.  Always succeeds. -/
def upcast (t : Nat) (v : Nat) : GObject := ⟨t, v⟩

/-- `o.downcast::<GType>()`: succeeds exactly when the runtime tag matches. -/
def GObject.downcast (t : Nat) (o : GObject) : Option Nat :=
  if o.tag = t then some o.val else none

/-- Model of the native `gio::ListStore`: an ordered untyped collection. -/
abbrev GioListStore := List GObject

namespace GioListStore

/-- `g_list_model_get_n_items`. -/
def n_items (s : GioListStore) : Nat := s.length

/-- `g_list_model_get_item`: `none` when `i` is out of range. -/
def item (s : GioListStore) (i : Nat) : Option GObject := s[i]?

/-- `g_list_store_splice store pos nrem adds`: atomically replace the window
`[pos, pos + nrem)` with `adds`.  When `pos + nrem > n_items` GLib fails the
precondition check and leaves the store unchanged. -/
def splice (s : GioListStore) (pos nrem : Nat) (adds : List GObject) : GioListStore :=
  if pos + nrem ≤ s.length then s.take pos ++ adds ++ s.drop (pos + nrem) else s

/-- `g_list_store_insert store pos o`: requires `pos ≤ n_items`, otherwise
GLib fails the precondition check and leaves the store unchanged. -/
def insertAt (s : GioListStore) (pos : Nat) (o : GObject) : GioListStore :=
  if pos ≤ s.length then s.take pos ++ o :: s.drop pos else s

/-- `g_list_store_remove store pos`: requires `pos < n_items`, otherwise
GLib fails the precondition check and leaves the store unchanged. -/
def removeAt (s : GioListStore) (pos : Nat) : GioListStore :=
  if pos < s.length then s.take pos ++ s.drop (pos + 1) else s

end GioListStore

/-- The diff vocabulary `ListDiff<GType>` of `list_store.rs`. -/
inductive ListDiff (α : Type) where
  | Set (elements : List α)
  | Append (elements : List α)
  | MoveUp (i : Nat)
  | MoveDown (i : Nat)
deriving Repr

/-- The typed wrapper `ListStore<GType>`: the type parameter `GType` is
modelled by its runtime tag `tag`, and the shared native collection by its
current contents `store`. -/
structure ListStore where
  tag : Nat
  store : GioListStore
deriving DecidableEq, Repr

namespace ListStore

/-- `ListStore::<GType>::new()`: a fresh, empty native collection. -/
def new (t : Nat) : ListStore := ⟨t, []⟩

/-- `extend`: upcast every element and append them all with one splice at the
end (`splice(n_items, 0, upcast_vec)`). -/
def extend (s : ListStore) (elements : List Nat) : ListStore :=
  ⟨s.tag, s.store.splice s.store.n_items 0 (elements.map (upcast s.tag))⟩

/-- `replace_all`: upcast every element and replace the whole contents with
one splice (`splice(0, n_items, upcast_vec)`). -/
def replace_all (s : ListStore) (elements : List Nat) : ListStore :=
  ⟨s.tag, s.store.splice 0 s.store.n_items (elements.map (upcast s.tag))⟩

/-- The private `swap(ia, ib)`: read both items; if either is absent return
`None` without mutating; otherwise splice the two-element window at `ia` with
the two items in swapped order.  Returns the new state and the `Option<()>`
result. -/
def swap (s : ListStore) (ia ib : Nat) : ListStore × Option Unit :=
  match s.store.item ia, s.store.item ib with
  | some a, some b => (⟨s.tag, s.store.splice ia 2 [b, a]⟩, some ())
  | _, _ => (s, none)

/-- `move_up_unchecked(index)`: `swap(index - 1, index).unwrap()`.  The `u32`
subtraction wraps, and the `unwrap` panics (modelled as `none`) when `swap`
returned `None`. -/
def move_up_unchecked (s : ListStore) (index : Nat) : Option ListStore :=
  match s.swap (u32SubOne index) index with
  | (s', some _) => some s'
  | (_, none) => none

/-- `move_down_unchecked(index)`: `swap(index, index + 1).unwrap()`. -/
def move_down_unchecked (s : ListStore) (index : Nat) : Option ListStore :=
  match s.swap index (u32AddOne index) with
  | (s', some _) => some s'
  | (_, none) => none

/-- `update(diff)`: one-shot dispatch on the diff variant.  The `usize`
move indices are truncated to `u32` (`i as u32`). -/
def update (s : ListStore) (diff : ListDiff Nat) : Option ListStore :=
  match diff with
  | .Set elements => some (s.replace_all elements)
  | .Append elements => some (s.extend elements)
  | .MoveDown i => s.move_down_unchecked (i % u32Mod)
  | .MoveUp i => s.move_up_unchecked (i % u32Mod)

/-- `insert(position, element)`: upcast and insert into the native store. -/
def insert (s : ListStore) (position : Nat) (element : Nat) : ListStore :=
  ⟨s.tag, s.store.insertAt position (upcast s.tag element)⟩

/-- `remove(position)`. -/
def remove (s : ListStore) (position : Nat) : ListStore :=
  ⟨s.tag, s.store.removeAt position⟩

/-- `get(index)`: `item(index).unwrap().downcast::<GType>().unwrap()` —
`none` models the panic on an out-of-range index or a failed downcast. -/
def get (s : ListStore) (index : Nat) : Option Nat :=
  (s.store.item index).bind (GObject.downcast s.tag)

/-- `len()`. -/
def len (s : ListStore) : Nat := s.store.n_items

end ListStore

/-- The iterator state of `iter()`: `(0..count).map(|i| self.get(i))` captures
`count = n_items` when `iter()` is called and keeps the next position. -/
structure StoreIter where
  count : Nat
  pos : Nat
deriving DecidableEq, Repr

/-- `iter()`: a fresh iterator over the current length, starting at 0. -/
def ListStore.iter (s : ListStore) : StoreIter := ⟨s.store.n_items, 0⟩

/-- One `next()` call of the iterator, executed against the store contents
`live` at the time of the access: inside the range it performs the indexed
read `live.get pos` (panic — `none` — if that read panics), past the range it
yields `(none, it)` meaning the iteration is finished. -/
def iterNext (live : ListStore) (it : StoreIter) : Option (Option Nat × StoreIter) :=
  if it.pos < it.count then
    match live.get it.pos with
    | some v => some (some v, ⟨it.count, it.pos + 1⟩)
    | none => none
  else some (none, it)

/-- Draining `n` further elements of the iterator starting at `pos` against a
store that is not mutated during the iteration: the list of values produced,
or `none` if some indexed read panics. -/
def collectFrom (live : ListStore) (pos : Nat) : Nat → Option (List Nat)
  | 0 => some []
  | n + 1 =>
    match live.get pos with
    | some v => (collectFrom live (pos + 1) n).map (fun vs => v :: vs)
    | none => none

/-- Running `iter()` to completion against an unchanging store. -/
def ListStore.iterList (s : ListStore) : Option (List Nat) :=
  collectFrom s 0 s.store.n_items

/-- The helper of `eq`: `self.iter().zip(other.iter()).all(...)`, lazily
walking `other` (`i` is the current store index).  Stops at the first failing
comparison; `none` models a panic of an indexed read. -/
def eqAux {O : Type} (s : ListStore) (cmp : Nat → O → Bool) : Nat → List O → Option Bool
  | _, [] => some true
  | i, o :: rest =>
    match s.get i with
    | none => none
    | some v => if cmp v o then eqAux s cmp (i + 1) rest else some false

/-- `eq(other, comparison)`: `self.len() == other.len() && zip-all`.  The
`&&` short-circuits, so nothing is read from the store when the lengths
differ. -/
def ListStore.eq {O : Type} (s : ListStore) (other : List O) (cmp : Nat → O → Bool) :
    Option Bool :=
  if s.len = other.length then eqAux s cmp 0 other else some false

/-- Modelled from the spec: the reference-counted native collection cell
behind a `gio::ListStore` handle (§6 external collaborator; the GLib
reference-counting itself is not part of this repository).  `strongCount` is
the number of strong owners currently alive; the collection is alive exactly
while `0 < strongCount`, and dropping the last strong owner destroys it. -/
structure NativeCell where
  strongCount : Nat
  contents : GioListStore
deriving DecidableEq, Repr

/-- Modelled from the spec: dropping one strong owner of the collection. -/
def NativeCell.dropStrong (c : NativeCell) : NativeCell :=
  ⟨c.strongCount - 1, c.contents⟩

/-- Modelled from the spec: the native weak-reference upgrade
(`upgrade(weak) → optional strong handle`): a strong handle exactly while the
collection is still alive. -/
def NativeCell.upgradeNative (c : NativeCell) : Option GioListStore :=
  if 0 < c.strongCount then some c.contents else none

/-- `WeakListStore<GType>`: the weak native handle plus the same compile-time
type tag.  The cell it points at is supplied when upgrading. -/
structure WeakListStore where
  tag : Nat
deriving DecidableEq, Repr

/-- `Downgrade for ListStore`: wrap the native downgrade, keeping the tag. -/
def ListStore.downgrade (s : ListStore) : WeakListStore := ⟨s.tag⟩

/-- `Upgrade for WeakListStore`:
`Some(Strong { store: self.store.upgrade()?, .. })` — a new strong typed
store when the native upgrade succeeds, `None` otherwise.  `cell` is the
state of the native collection cell at the time of the call. -/
def WeakListStore.upgrade (w : WeakListStore) (cell : NativeCell) : Option ListStore :=
  match cell.upgradeNative with
  | some st => some ⟨w.tag, st⟩
  | none => none

/-- The type-safety invariant: every object in the native store carries the
wrapper's tag (is-a `GType`). -/
def WellTyped (s : ListStore) : Prop := ∀ o ∈ s.store, o.tag = s.tag

instance (s : ListStore) : Decidable (WellTyped s) := by
  unfold WellTyped; infer_instance

/-! ### Basic lemmas about the native splice and the typed mutators -/

theorem splice_replace (l : GioListStore) (adds : List GObject) :
    l.splice 0 l.length adds = adds := by
  simp [GioListStore.splice]

theorem splice_append (l : GioListStore) (adds : List GObject) :
    l.splice l.length 0 adds = l ++ adds := by
  simp [GioListStore.splice]

theorem replace_all_store (s : ListStore) (xs : List Nat) :
    s.replace_all xs = ⟨s.tag, xs.map (upcast s.tag)⟩ := by
  simp [ListStore.replace_all, GioListStore.n_items, splice_replace]

theorem extend_store (s : ListStore) (xs : List Nat) :
    s.extend xs = ⟨s.tag, s.store ++ xs.map (upcast s.tag)⟩ := by
  simp [ListStore.extend, GioListStore.n_items, splice_append]

theorem swap_some {s : ListStore} {ia ib : Nat} {a b : GObject}
    (ha : s.store.item ia = some a) (hb : s.store.item ib = some b) :
    s.swap ia ib = (⟨s.tag, s.store.splice ia 2 [b, a]⟩, some ()) := by
  unfold ListStore.swap
  rw [ha, hb]

theorem swap_none {s : ListStore} {ia ib : Nat}
    (h : s.store.item ia = none ∨ s.store.item ib = none) :
    s.swap ia ib = (s, none) := by
  unfold ListStore.swap
  rcases ha : s.store.item ia with _ | a <;> rcases hb : s.store.item ib with _ | b <;>
    simp_all

theorem move_up_unchecked_some {s : ListStore} {i : Nat} {a b : GObject}
    (ha : s.store.item (u32SubOne i) = some a) (hb : s.store.item i = some b) :
    s.move_up_unchecked i = some ⟨s.tag, s.store.splice (u32SubOne i) 2 [b, a]⟩ := by
  unfold ListStore.move_up_unchecked
  rw [swap_some ha hb]

theorem move_up_unchecked_none {s : ListStore} {i : Nat}
    (h : s.store.item (u32SubOne i) = none ∨ s.store.item i = none) :
    s.move_up_unchecked i = none := by
  unfold ListStore.move_up_unchecked
  rw [swap_none h]

theorem move_down_unchecked_some {s : ListStore} {i : Nat} {a b : GObject}
    (ha : s.store.item i = some a) (hb : s.store.item (u32AddOne i) = some b) :
    s.move_down_unchecked i = some ⟨s.tag, s.store.splice i 2 [b, a]⟩ := by
  unfold ListStore.move_down_unchecked
  rw [swap_some ha hb]

theorem move_down_unchecked_none {s : ListStore} {i : Nat}
    (h : s.store.item i = none ∨ s.store.item (u32AddOne i) = none) :
    s.move_down_unchecked i = none := by
  unfold ListStore.move_down_unchecked
  rw [swap_none h]

/-- Draining the iterator over a suffix that consists of upcast elements
yields exactly those elements. -/
theorem collectFrom_map_upcast (t : Nat) :
    ∀ (xs : List Nat) (pre : List GObject),
      collectFrom ⟨t, pre ++ xs.map (upcast t)⟩ pre.length xs.length = some xs := by
  intro xs
  induction xs with
  | nil => intro pre; simp [collectFrom]
  | cons v rest ih =>
    intro pre
    have hget : ListStore.get ⟨t, pre ++ (v :: rest).map (upcast t)⟩ pre.length = some v := by
      simp [ListStore.get, GioListStore.item,
        List.getElem?_append_right (Nat.le_refl pre.length), upcast, GObject.downcast]
    have hstore : (⟨t, pre ++ (v :: rest).map (upcast t)⟩ : ListStore) =
        ⟨t, (pre ++ [upcast t v]) ++ rest.map (upcast t)⟩ := by
      simp
    have hlen : pre.length + 1 = (pre ++ [upcast t v]).length := by
      simp
    show collectFrom _ _ (rest.length + 1) = _
    rw [collectFrom, hget]
    rw [hstore, hlen, ih (pre ++ [upcast t v])]
    rfl

theorem move_up_some_inv {s s' : ListStore} {i : Nat}
    (h : s.move_up_unchecked i = some s') :
    ∃ a b, s.store.item (u32SubOne i) = some a ∧ s.store.item i = some b ∧
      s' = ⟨s.tag, s.store.splice (u32SubOne i) 2 [b, a]⟩ := by
  rcases ha : s.store.item (u32SubOne i) with _ | a
  · rw [move_up_unchecked_none (Or.inl ha)] at h
    exact absurd h (by simp)
  rcases hb : s.store.item i with _ | b
  · rw [move_up_unchecked_none (Or.inr hb)] at h
    exact absurd h (by simp)
  rw [move_up_unchecked_some ha hb] at h
  exact ⟨a, b, rfl, rfl, (Option.some_injective _ h).symm⟩

theorem move_down_some_inv {s s' : ListStore} {i : Nat}
    (h : s.move_down_unchecked i = some s') :
    ∃ a b, s.store.item i = some a ∧ s.store.item (u32AddOne i) = some b ∧
      s' = ⟨s.tag, s.store.splice i 2 [b, a]⟩ := by
  rcases ha : s.store.item i with _ | a
  · rw [move_down_unchecked_none (Or.inl ha)] at h
    exact absurd h (by simp)
  rcases hb : s.store.item (u32AddOne i) with _ | b
  · rw [move_down_unchecked_none (Or.inr hb)] at h
    exact absurd h (by simp)
  rw [move_down_unchecked_some ha hb] at h
  exact ⟨a, b, rfl, rfl, (Option.some_injective _ h).symm⟩

theorem mem_splice {l adds : GioListStore} {pos nrem : Nat} {o : GObject}
    (h : o ∈ l.splice pos nrem adds) : o ∈ l ∨ o ∈ adds := by
  unfold GioListStore.splice at h
  split at h
  · rcases List.mem_append.1 h with h1 | h1
    · rcases List.mem_append.1 h1 with h2 | h2
      · exact Or.inl (List.take_subset _ _ h2)
      · exact Or.inr h2
    · exact Or.inl (List.drop_subset _ _ h1)
  · exact Or.inl h

theorem tag_of_mem_map_upcast {t : Nat} {xs : List Nat} {o : GObject}
    (h : o ∈ xs.map (upcast t)) : o.tag = t := by
  rcases List.mem_map.1 h with ⟨v, _, rfl⟩
  rfl

/-! ### Claim theorems -/

/-- C3: `update(diff)` dispatches exactly as `Set(xs) ↦ replace_all(xs)`,
`Append(xs) ↦ extend(xs)`, `MoveUp(i) ↦ move_up_unchecked(i)`,
`MoveDown(i) ↦ move_down_unchecked(i)` (the `usize` index truncated to
`u32`); `replace_all` and `extend` are each exactly one native splice, and a
successful move is exactly one native splice of the two-element window. -/
theorem update_dispatch (s : ListStore) (xs : List Nat) (i : Nat) :
    s.update (.Set xs) = some (s.replace_all xs) ∧
    s.update (.Append xs) = some (s.extend xs) ∧
    s.update (.MoveUp i) = s.move_up_unchecked (i % u32Mod) ∧
    s.update (.MoveDown i) = s.move_down_unchecked (i % u32Mod) ∧
    s.replace_all xs = ⟨s.tag, s.store.splice 0 s.store.n_items (xs.map (upcast s.tag))⟩ ∧
    s.extend xs = ⟨s.tag, s.store.splice s.store.n_items 0 (xs.map (upcast s.tag))⟩ ∧
    (∀ s', s.move_up_unchecked i = some s' →
      ∃ a b, s.store.item (u32SubOne i) = some a ∧ s.store.item i = some b ∧
        s' = ⟨s.tag, s.store.splice (u32SubOne i) 2 [b, a]⟩) ∧
    (∀ s', s.move_down_unchecked i = some s' →
      ∃ a b, s.store.item i = some a ∧ s.store.item (u32AddOne i) = some b ∧
        s' = ⟨s.tag, s.store.splice i 2 [b, a]⟩) := by
  exact ⟨rfl, rfl, rfl, rfl, rfl, rfl,
    fun s' h => move_up_some_inv h, fun s' h => move_down_some_inv h⟩

/-- Witness for C3: the move conjuncts applied to the concrete store
`[10, 11]` at index 1. -/
theorem update_dispatch_witness :
    ∃ a b,
      (⟨0, [⟨0, 10⟩, ⟨0, 11⟩]⟩ : ListStore).store.item (u32SubOne 1) = some a ∧
      (⟨0, [⟨0, 10⟩, ⟨0, 11⟩]⟩ : ListStore).store.item 1 = some b ∧
      (⟨0, [⟨0, 11⟩, ⟨0, 10⟩]⟩ : ListStore) =
        ⟨0, (⟨0, [⟨0, 10⟩, ⟨0, 11⟩]⟩ : ListStore).store.splice (u32SubOne 1) 2 [b, a]⟩ :=
  (update_dispatch ⟨0, [⟨0, 10⟩, ⟨0, 11⟩]⟩ [] 1).2.2.2.2.2.2.1
    ⟨0, [⟨0, 11⟩, ⟨0, 10⟩]⟩ (by decide)

/-- C4: for every starting store and sequence `xs`, `replace_all xs`
(equivalently `update (Set xs)`) makes the contents exactly `xs` in order, so
running `iter()` yields exactly `xs`; `Set []` empties any store. -/
theorem replace_all_then_iter (s : ListStore) (xs : List Nat) :
    s.update (.Set xs) = some (s.replace_all xs) ∧
    (s.replace_all xs).iterList = some xs ∧
    (s.replace_all []).len = 0 := by
  refine ⟨rfl, ?_, ?_⟩
  · rw [replace_all_store]
    have h := collectFrom_map_upcast s.tag xs []
    simpa [ListStore.iterList, GioListStore.n_items] using h
  · simp [replace_all_store, ListStore.len, GioListStore.n_items]

/-- C5: `extend` appends in order and composes by concatenation: starting
empty, `extend a` then `extend b` then `iter()` yields `a ++ b`; `len()`
after `Set [x1,x2,x3]` is 3 and after a further `Append [x4]` is 4. -/
theorem extend_concat_len (t : Nat) (a b : List Nat) (s : ListStore)
    (x1 x2 x3 x4 : Nat) :
    (((ListStore.new t).extend a).extend b).iterList = some (a ++ b) ∧
    (∃ s1 s2, s.update (.Set [x1, x2, x3]) = some s1 ∧ s1.len = 3 ∧
      s1.update (.Append [x4]) = some s2 ∧ s2.len = 4) := by
  constructor
  · rw [extend_store, extend_store]
    have h := collectFrom_map_upcast t (a ++ b) []
    simpa [ListStore.new, ListStore.iterList, GioListStore.n_items] using h
  · refine ⟨s.replace_all [x1, x2, x3], (s.replace_all [x1, x2, x3]).extend [x4],
      rfl, ?_, rfl, ?_⟩
    · simp [replace_all_store, ListStore.len, GioListStore.n_items]
    · simp [extend_store, replace_all_store, ListStore.len, GioListStore.n_items]

/-- C1: every element ever inserted through the typed API carries the
wrapper's tag ("is-a T", upcast at insertion), so on any store mutated only
through `new`/`insert`/`extend`/`replace_all`/`update` the `get` downcast
succeeds for every in-range index. -/
theorem typed_api_type_safety :
    (∀ t, WellTyped (ListStore.new t)) ∧
    (∀ s : ListStore, WellTyped s →
      (∀ pos v, WellTyped (s.insert pos v)) ∧
      (∀ xs, WellTyped (s.extend xs)) ∧
      (∀ xs, WellTyped (s.replace_all xs)) ∧
      (∀ d s', s.update d = some s' → WellTyped s') ∧
      (∀ i, i < s.len → ∃ v, s.get i = some v)) := by
  constructor
  · intro t o ho
    simp [ListStore.new] at ho
  · intro s hs
    have hext : ∀ xs, WellTyped (s.extend xs) := by
      intro xs o ho
      rw [extend_store] at ho
      rcases List.mem_append.1 ho with h1 | h1
      · exact hs o h1
      · exact tag_of_mem_map_upcast h1
    have hrep : ∀ xs, WellTyped (s.replace_all xs) := by
      intro xs o ho
      rw [replace_all_store] at ho
      exact tag_of_mem_map_upcast ho
    have hwin : ∀ (ia : Nat) (a b : GObject), s.store.item ia = some a →
        b ∈ s.store → ∀ o ∈ s.store.splice ia 2 [b, a], o.tag = s.tag := by
      intro ia a b ha hbmem o ho
      rcases mem_splice ho with h1 | h1
      · exact hs o h1
      · rcases List.mem_cons.1 h1 with h2 | h2
        · subst h2
          exact hs o hbmem
        · have h3 : o = a := by simpa using h2
          subst h3
          exact hs o (List.getElem?_mem ha)
    refine ⟨?_, hext, hrep, ?_, ?_⟩
    · intro pos v o ho
      simp only [ListStore.insert, GioListStore.insertAt] at ho
      split at ho
      · rcases List.mem_append.1 ho with h1 | h1
        · exact hs o (List.take_subset _ _ h1)
        · rcases List.mem_cons.1 h1 with h2 | h2
          · subst h2
            rfl
          · exact hs o (List.drop_subset _ _ h2)
      · exact hs o ho
    · intro d s' h
      cases d with
      | Set xs =>
        simp only [ListStore.update] at h
        cases h
        exact hrep xs
      | Append xs =>
        simp only [ListStore.update] at h
        cases h
        exact hext xs
      | MoveUp i =>
        simp only [ListStore.update] at h
        rcases move_up_some_inv h with ⟨a, b, ha, hb, rfl⟩
        exact hwin _ a b ha (List.getElem?_mem hb)
      | MoveDown i =>
        simp only [ListStore.update] at h
        rcases move_down_some_inv h with ⟨a, b, ha, hb, rfl⟩
        exact hwin _ a b ha (List.getElem?_mem hb)
    · intro i hi
      have hlt : i < s.store.length := hi
      have hsome : s.store[i]? = some s.store[i] := List.getElem?_eq_getElem hlt
      have htag : (s.store[i]).tag = s.tag := hs _ (List.getElem?_mem hsome)
      exact ⟨(s.store[i]).val,
        by simp [ListStore.get, GioListStore.item, GObject.downcast, hsome, htag]⟩

/-- Witness for C1: on the well-typed store obtained by extending a fresh
store with one element, `get 0` succeeds. -/
theorem typed_api_type_safety_witness :
    ∃ v, ((ListStore.new 0).extend [7]).get 0 = some v :=
  (typed_api_type_safety.2 ((ListStore.new 0).extend [7]) (by decide)).2.2.2.2
    0 (by decide)

/-- C2 counterexample: on the one-element store `[5]`, the swap window of
`move_down_unchecked 0` has an absent element at the adjacent index 1; the
call does not complete as a silent no-op — it panics (`none`), because
`move_down_unchecked` unwraps the `None` that `swap` returned. -/
theorem move_boundary_silent_noop_cex :
    (⟨0, [⟨0, 5⟩]⟩ : ListStore).store.item (u32AddOne 0) = none ∧
    ListStore.move_down_unchecked ⟨0, [⟨0, 5⟩]⟩ 0 = none ∧
    ListStore.move_down_unchecked ⟨0, [⟨0, 5⟩]⟩ 0 ≠ some ⟨0, [⟨0, 5⟩]⟩ := by
  decide

/-- C2 amended: when either index of the two-element swap window is absent,
the underlying `swap` aborts with no mutation and returns `None`, and the
unchecked move then panics unwrapping that `None` (modelled as `none`)
rather than completing as a silent no-op. -/
theorem move_boundary_no_mutation (s : ListStore) (i : Nat) :
    (s.store.item (u32SubOne i) = none ∨ s.store.item i = none →
      s.swap (u32SubOne i) i = (s, none) ∧ s.move_up_unchecked i = none) ∧
    (s.store.item i = none ∨ s.store.item (u32AddOne i) = none →
      s.swap i (u32AddOne i) = (s, none) ∧ s.move_down_unchecked i = none) :=
  ⟨fun h => ⟨swap_none h, move_up_unchecked_none h⟩,
   fun h => ⟨swap_none h, move_down_unchecked_none h⟩⟩

/-- Witness for C2 (amended): the one-element store `[5]` at index 0. -/
theorem move_boundary_no_mutation_witness :
    ListStore.swap ⟨0, [⟨0, 5⟩]⟩ 0 (u32AddOne 0) = (⟨0, [⟨0, 5⟩]⟩, none) ∧
    ListStore.move_down_unchecked ⟨0, [⟨0, 5⟩]⟩ 0 = none :=
  (move_boundary_no_mutation ⟨0, [⟨0, 5⟩]⟩ 0).2 (Or.inr (by decide))

/-- C8: on any store within the `u32` capacity of the native collection,
`move_up_unchecked 0` never completes as if a valid move had occurred — it
panics (`none`) — and the wrapped-around predecessor index `2^32 - 1` never
produces a swap: the swap call aborts leaving the store unmutated.  (In a
debug build the `u32` subtraction `0 - 1` itself panics before `swap` is
even reached.) -/
theorem move_up_zero_contract_violation (s : ListStore)
    (h : s.store.n_items < u32Mod) :
    s.move_up_unchecked 0 = none ∧ s.swap (u32SubOne 0) 0 = (s, none) := by
  have hcap : s.store.length < 4294967296 := h
  have h1 : u32SubOne 0 = u32Mod - 1 := by decide
  have hnone : s.store.item (u32SubOne 0) = none := by
    rw [h1]
    exact List.getElem?_eq_none (by unfold u32Mod; omega)
  exact ⟨move_up_unchecked_none (Or.inl hnone), swap_none (Or.inl hnone)⟩

/-- Witness for C8: the one-element store `[5]`. -/
theorem move_up_zero_contract_violation_witness :
    ListStore.move_up_unchecked ⟨0, [⟨0, 5⟩]⟩ 0 = none ∧
    ListStore.swap ⟨0, [⟨0, 5⟩]⟩ (u32SubOne 0) 0 = (⟨0, [⟨0, 5⟩]⟩, none) :=
  move_up_zero_contract_violation ⟨0, [⟨0, 5⟩]⟩ (by decide)

theorem splice_window (l : GioListStore) (i : Nat) (x y : GObject)
    (h : i + 2 ≤ l.length) :
    l.splice i 2 [x, y] = l.take i ++ x :: y :: l.drop (i + 2) := by
  simp [GioListStore.splice, h]

theorem getElem?_splice_window (l : GioListStore) (i : Nat) (x y : GObject)
    (h : i + 2 ≤ l.length) :
    ∀ j, j ≠ i → j ≠ i + 1 →
      (l.take i ++ x :: y :: l.drop (i + 2))[j]? = l[j]? := by
  intro j hj1 hj2
  have hti : (l.take i).length = i := by
    rw [List.length_take]
    omega
  rcases Nat.lt_or_ge j i with hlt | hge
  · rw [List.getElem?_append_left (by rw [hti]; exact hlt)]
    exact List.getElem?_take_of_lt hlt
  · have hge2 : i + 2 ≤ j := by omega
    rw [List.getElem?_append_right (by rw [hti]; omega)]
    have hsub : j - (l.take i).length = (j - i - 2) + 1 + 1 := by
      rw [hti]
      omega
    rw [hsub]
    simp only [List.getElem?_cons_succ]
    rw [List.getElem?_drop]
    congr 1
    omega

/-- C6: on `[x0,x1,x2]`, `move_up_unchecked 1` yields `[x1,x0,x2]` and
`move_down_unchecked 1` yields `[x0,x2,x1]`; in general, a valid adjacent
move (both window items present, store within the native `u32` capacity)
replaces the two-element window with the same two elements in swapped order
via a single splice, and every other index reads unchanged. -/
theorem adjacent_move_swaps_window (t : Nat) (o0 o1 o2 : GObject)
    (s : ListStore) (i : Nat) (a b : GObject)
    (hcap : s.store.n_items < u32Mod)
    (ha : s.store.item i = some a) (hb : s.store.item (i + 1) = some b) :
    ListStore.move_up_unchecked ⟨t, [o0, o1, o2]⟩ 1 = some ⟨t, [o1, o0, o2]⟩ ∧
    ListStore.move_down_unchecked ⟨t, [o0, o1, o2]⟩ 1 = some ⟨t, [o0, o2, o1]⟩ ∧
    s.move_down_unchecked i =
      some ⟨s.tag, s.store.take i ++ b :: a :: s.store.drop (i + 2)⟩ ∧
    (∀ j, j ≠ i → j ≠ i + 1 →
      (s.store.take i ++ b :: a :: s.store.drop (i + 2))[j]? = s.store[j]?) := by
  have hlen : i + 1 < s.store.length := by
    by_contra hc
    rw [show s.store.item (i + 1) = s.store[i + 1]? from rfl,
      List.getElem?_eq_none (by omega)] at hb
    exact absurd hb (by simp)
  have hcap' : s.store.length < 4294967296 := hcap
  have hadd : u32AddOne i = i + 1 :=
    Nat.mod_eq_of_lt (show i + 1 < u32Mod by unfold u32Mod; omega)
  refine ⟨?_, ?_, ?_, ?_⟩
  · have h10 : u32SubOne 1 = 0 := by decide
    have hup := move_up_unchecked_some (s := ⟨t, [o0, o1, o2]⟩) (i := 1)
      (a := o0) (b := o1) (by rw [h10]; rfl) rfl
    rw [hup, h10]
    rfl
  · have h12 : u32AddOne 1 = 2 := by decide
    have hdn := move_down_unchecked_some (s := ⟨t, [o0, o1, o2]⟩) (i := 1)
      (a := o1) (b := o2) rfl (by rw [h12]; rfl)
    rw [hdn]
    rfl
  · rw [move_down_unchecked_some ha (by rw [hadd]; exact hb)]
    rw [splice_window _ _ _ _ (by omega)]
  · exact getElem?_splice_window s.store i b a (by omega)

/-- Witness for C6: the four-element store `[1,2,3,4]` (all tag 0), moving
index 1 down; index 3 reads unchanged. -/
theorem adjacent_move_swaps_window_witness :
    ListStore.move_down_unchecked ⟨0, [⟨0, 1⟩, ⟨0, 2⟩, ⟨0, 3⟩, ⟨0, 4⟩]⟩ 1 =
      some ⟨0, List.take 1 [⟨0, 1⟩, ⟨0, 2⟩, ⟨0, 3⟩, ⟨0, 4⟩] ++
        ⟨0, 3⟩ :: ⟨0, 2⟩ :: List.drop 3 [⟨0, 1⟩, ⟨0, 2⟩, ⟨0, 3⟩, ⟨0, 4⟩]⟩ ∧
    (List.take 1 [⟨0, 1⟩, ⟨0, 2⟩, ⟨0, 3⟩, ⟨0, 4⟩] ++
        ⟨0, 3⟩ :: ⟨0, 2⟩ :: List.drop 3 [⟨0, 1⟩, ⟨0, 2⟩, ⟨0, 3⟩, ⟨0, 4⟩])[3]? =
      [(⟨0, 1⟩ : GObject), ⟨0, 2⟩, ⟨0, 3⟩, ⟨0, 4⟩][3]? := by
  have h := adjacent_move_swaps_window 0 ⟨0, 1⟩ ⟨0, 2⟩ ⟨0, 3⟩
    ⟨0, [⟨0, 1⟩, ⟨0, 2⟩, ⟨0, 3⟩, ⟨0, 4⟩]⟩ 1 ⟨0, 2⟩ ⟨0, 3⟩
    (by decide) (by decide) (by decide)
  exact ⟨h.2.2.1, h.2.2.2 3 (by decide) (by decide)⟩

/-- The contents of a suffix of upcast elements compared entry by entry:
auxiliary specification of `eqAux`. -/
theorem eqAux_spec {O : Type} (cmp : Nat → O → Bool) (t : Nat) :
    ∀ (other : List O) (pre post : GioListStore),
      WellTyped ⟨t, pre ++ post⟩ → post.length = other.length →
      (eqAux ⟨t, pre ++ post⟩ cmp pre.length other = some true ↔
        (List.zipWith cmp (post.map GObject.val) other).all id = true) := by
  intro other
  induction other with
  | nil =>
    intro pre post hwt hlen
    have hpost : post = [] := List.eq_nil_of_length_eq_zero hlen
    subst hpost
    simp [eqAux]
  | cons o rest ih =>
    intro pre post hwt hlen
    rcases post with _ | ⟨p, post'⟩
    · simp at hlen
    · have htag : p.tag = t := hwt p (by simp)
      have hget : ListStore.get ⟨t, pre ++ p :: post'⟩ pre.length = some p.val := by
        simp [ListStore.get, GioListStore.item,
          List.getElem?_append_right (Nat.le_refl pre.length), GObject.downcast, htag]
      have hassoc : (⟨t, pre ++ p :: post'⟩ : ListStore) =
          ⟨t, (pre ++ [p]) ++ post'⟩ := by
        simp
      have hlen1 : pre.length + 1 = (pre ++ [p]).length := by
        simp
      simp only [eqAux]
      rw [hget]
      show (if cmp p.val o = true then
          eqAux ⟨t, pre ++ p :: post'⟩ cmp (pre.length + 1) rest
        else some false) = some true ↔ _
      by_cases hc : cmp p.val o = true
      · rw [if_pos hc, hassoc, hlen1,
          ih (pre ++ [p]) post' (by rw [← hassoc]; exact hwt) (by simpa using hlen)]
        simp [hc]
      · rw [if_neg hc]
        simp [List.all_cons, hc]

/-- C7: `eq(other, cmp)` on a well-typed store returns `true` iff the
lengths match and `cmp` holds pairwise in order, and returns `false`
whenever the lengths differ, regardless of `cmp` (the `&&` short-circuits,
so no element is even read). -/
theorem eq_pairwise (O : Type) (s : ListStore) (other : List O)
    (cmp : Nat → O → Bool) :
    (WellTyped s →
      (s.eq other cmp = some true ↔
        s.len = other.length ∧
        (List.zipWith cmp (s.store.map GObject.val) other).all id = true)) ∧
    (s.len ≠ other.length → s.eq other cmp = some false) := by
  constructor
  · intro hwt
    unfold ListStore.eq
    by_cases hlen : s.len = other.length
    · rw [if_pos hlen]
      have h := eqAux_spec cmp s.tag other [] s.store hwt hlen
      constructor
      · intro htrue
        exact ⟨hlen, h.1 htrue⟩
      · intro hr
        exact h.2 hr.2
    · rw [if_neg hlen]
      constructor
      · intro hfalse
        exact absurd hfalse (by simp)
      · intro hr
        exact absurd hr.1 hlen
  · intro h
    unfold ListStore.eq
    rw [if_neg h]

/-- Witness for C7: the store `[10, 11]` compared with `[10, 11]` (true) and
with `[10]` (false, lengths differ). -/
theorem eq_pairwise_witness :
    (⟨0, [⟨0, 10⟩, ⟨0, 11⟩]⟩ : ListStore).eq [10, 11] (fun a b => a == b) =
      some true ∧
    (⟨0, [⟨0, 10⟩, ⟨0, 11⟩]⟩ : ListStore).eq [10] (fun a b => a == b) =
      some false := by
  constructor
  · exact ((eq_pairwise Nat ⟨0, [⟨0, 10⟩, ⟨0, 11⟩]⟩ [10, 11]
      (fun a b => a == b)).1 (by decide)).2 ⟨by decide, by decide⟩
  · exact (eq_pairwise Nat ⟨0, [⟨0, 10⟩, ⟨0, 11⟩]⟩ [10]
      (fun a b => a == b)).2 (by decide)

/-- C9: `iter()` captures only the current count and a cursor (so it is
restartable and finite — accesses stop once the cursor reaches the count),
and every in-range access is exactly the indexed read `get` against the
store contents `live` at the time of that access, not against a snapshot
copy taken when `iter()` was called. -/
theorem iter_lazy_live (s live : ListStore) (c p : Nat) :
    s.iter = ⟨s.len, 0⟩ ∧
    (p < c → iterNext live ⟨c, p⟩ =
      Option.map (fun v => (some v, (⟨c, p + 1⟩ : StoreIter))) (live.get p)) ∧
    (c ≤ p → iterNext live ⟨c, p⟩ = some (none, ⟨c, p⟩)) := by
  refine ⟨rfl, ?_, ?_⟩
  · intro hp
    unfold iterNext
    rw [if_pos hp]
    cases h : live.get p <;> simp [h]
  · intro hp
    unfold iterNext
    rw [if_neg (Nat.not_lt.2 hp)]

/-- Witness for C9: a one-element live store read through an iterator whose
captured count is 3; the access at 0 reads the live element 9, and the
cursor at 3 is exhausted. -/
theorem iter_lazy_live_witness :
    iterNext ⟨0, [⟨0, 9⟩]⟩ ⟨3, 0⟩ = some (some 9, ⟨3, 1⟩) ∧
    iterNext ⟨0, [⟨0, 9⟩]⟩ ⟨3, 3⟩ = some (none, ⟨3, 3⟩) := by
  constructor
  · rw [(iter_lazy_live (ListStore.new 0) ⟨0, [⟨0, 9⟩]⟩ 3 0).2.1 (by decide)]
    decide
  · exact (iter_lazy_live (ListStore.new 0) ⟨0, [⟨0, 9⟩]⟩ 3 3).2.2 (by decide)

/-- C10: for every weak reference obtained by `downgrade()`, `upgrade()`
returns a new strong typed store — same type tag, over the still-alive
native collection — exactly while some strong owner is alive
(`0 < strongCount`), and returns `none` (a normal absent outcome, not an
error) once all strong owners have been dropped (`strongCount = 0`). -/
theorem weak_upgrade_iff_alive (s : ListStore) (cell : NativeCell) :
    (0 < cell.strongCount →
      (s.downgrade).upgrade cell = some ⟨s.tag, cell.contents⟩) ∧
    (cell.strongCount = 0 → (s.downgrade).upgrade cell = none) := by
  constructor
  · intro h
    unfold WeakListStore.upgrade NativeCell.upgradeNative ListStore.downgrade
    rw [if_pos h]
  · intro h
    unfold WeakListStore.upgrade NativeCell.upgradeNative ListStore.downgrade
    rw [if_neg (by omega)]

/-- Witness for C10: a cell with one strong owner upgrades; after that owner
is dropped (`dropStrong`, count 0) the upgrade is absent. -/
theorem weak_upgrade_iff_alive_witness :
    ((ListStore.new 0).downgrade).upgrade ⟨1, []⟩ = some ⟨0, []⟩ ∧
    ((ListStore.new 0).downgrade).upgrade (NativeCell.dropStrong ⟨1, []⟩) = none :=
  ⟨(weak_upgrade_iff_alive (ListStore.new 0) ⟨1, []⟩).1 (by decide),
   (weak_upgrade_iff_alive (ListStore.new 0) (NativeCell.dropStrong ⟨1, []⟩)).2 rfl⟩

end SpotListStore
